import Mathlib

/-!
Verification development for the fling repository.

Shallow embedding of the core of fling: the rendezvous protocol messages
(crates `shared` and `message-types`), the presence directory
(`fling-server/src/main.rs`), and the transfer coordinator
(`fling-native/src/main.rs`, `fling-native/src/iroh_node.rs`).
Machine integers are modelled as `Nat`; the `f32` progress division is
modelled by exact rational division; stream-driven loops are modelled as
functions over the list of items the underlying stream yields.
-/

/-- JSON value tree, the image of serde_json values used by the protocol.
Only the shapes produced by the derived serializers are needed. -/
inductive Json where
  | str (s : String)
  | arr (xs : List Json)
  | obj (fields : List (String × Json))

/-- Embeds `iroh_blobs::BlobFormat`: a ticket either references a single raw blob or a
hash sequence (collection). -/
inductive BlobFormat where
  | raw
  | hashSeq
deriving DecidableEq, Repr

/-- Modelled from the spec: `iroh_blobs::ticket::BlobTicket` is external to the
repository; per the spec a Ticket is {content address of the collection, format
tag, origin peer network address}, and content address / node address are
hash-derived identifiers, modelled as `Nat`. -/
structure BlobTicket where
  hash : Nat
  format : BlobFormat
  node : Nat
deriving DecidableEq, Repr

/-- Leading character of the ticket string encoding, selecting the format tag. -/
def formatChar : BlobFormat → Char
  | .raw => 'r'
  | .hashSeq => 's'

/-- Modelled from the spec: the string-encoded form of a `BlobTicket` (the real
codec lives in the external iroh-blobs crate); the spec only requires that it
round-trips losslessly over content address, format tag and origin address, so
any injective executable encoding is a faithful model. -/
def ticketToString (t : BlobTicket) : String :=
  String.mk (formatChar t.format :: List.replicate (Nat.pair t.hash t.node) 'x')

/-- Modelled from the spec: decoder for `ticketToString`. -/
def ticketFromString (s : String) : Option BlobTicket :=
  match s.data with
  | [] => none
  | c :: rest =>
    if rest.all (fun d => d == 'x') then
      if c = 'r' then some ⟨(Nat.unpair rest.length).1, .raw, (Nat.unpair rest.length).2⟩
      else if c = 's' then some ⟨(Nat.unpair rest.length).1, .hashSeq, (Nat.unpair rest.length).2⟩
      else none
    else none

/-- Embeds the `message-types/src/lib.rs` `WebSocketMessage`: the protocol message enum
that carries a structured `BlobTicket` (file paths are modelled as strings). -/
inductive WebSocketMessage where
  | register (nickname : String)
  | registerSuccess (users : List String)
  | userJoined (nickname : String)
  | userLeft (nickname : String)
  | prepareFile (recipient : String) (files : List String)
  | sendFile (recipient : String) (ticket : BlobTicket)
  | receiveFile (ticket : BlobTicket)
  | downloadFile (ticket : BlobTicket)
  | errorDeserializingJson (e : String)
deriving DecidableEq, Repr

/-- Encoding of a list of strings as a JSON array (serde `Vec<String>`). -/
def strArr (xs : List String) : Json :=
  Json.arr (xs.map Json.str)

/-- serde adjacently tagged layout
`#[serde(tag = "type", content = "payload", rename_all = "snake_case")]`. -/
def tagged (t : String) (payload : Json) : Json :=
  Json.obj [("type", Json.str t), ("payload", payload)]

/-- Embeds `WebSocketMessage::to_json` (message-types): the derived serde serializer,
at the level of JSON values. Serialization of this enum is total, so the
`expect` in the source can never fire on this type. -/
def WebSocketMessage.to_json : WebSocketMessage → Json
  | .register n => tagged "register" (Json.str n)
  | .registerSuccess us => tagged "register_success" (strArr us)
  | .userJoined n => tagged "user_joined" (Json.str n)
  | .userLeft n => tagged "user_left" (Json.str n)
  | .prepareFile r fs =>
    tagged "prepare_file" (Json.obj [("recipient", Json.str r), ("files", strArr fs)])
  | .sendFile r t =>
    tagged "send_file" (Json.obj [("recipient", Json.str r), ("ticket", Json.str (ticketToString t))])
  | .receiveFile t => tagged "receive_file" (Json.str (ticketToString t))
  | .downloadFile t => tagged "download_file" (Json.str (ticketToString t))
  | .errorDeserializingJson e => tagged "error_deserializing_json" (Json.str e)

/-- Decoder for a JSON array of strings. -/
def decodeStrList : Json → Option (List String)
  | .arr xs => xs.mapM (fun j => match j with | .str s => some s | _ => none)
  | _ => none

/-- The derived serde deserializer for the message-types `WebSocketMessage`,
at the level of JSON values (inverse of `WebSocketMessage.to_json`). -/
def WebSocketMessage.from_json : Json → Option WebSocketMessage
  | .obj [("type", .str t), ("payload", p)] =>
    if t = "register" then
      match p with | .str n => some (.register n) | _ => none
    else if t = "register_success" then
      (decodeStrList p).map .registerSuccess
    else if t = "user_joined" then
      match p with | .str n => some (.userJoined n) | _ => none
    else if t = "user_left" then
      match p with | .str n => some (.userLeft n) | _ => none
    else if t = "prepare_file" then
      match p with
      | .obj [("recipient", .str r), ("files", fs)] =>
        (decodeStrList fs).map (.prepareFile r)
      | _ => none
    else if t = "send_file" then
      match p with
      | .obj [("recipient", .str r), ("ticket", .str s)] =>
        (ticketFromString s).map (.sendFile r)
      | _ => none
    else if t = "receive_file" then
      match p with | .str s => (ticketFromString s).map .receiveFile | _ => none
    else if t = "download_file" then
      match p with | .str s => (ticketFromString s).map .downloadFile | _ => none
    else if t = "error_deserializing_json" then
      match p with | .str e => some (.errorDeserializingJson e) | _ => none
    else none
  | _ => none

/-! ## Presence Directory (fling-server/src/main.rs) -/

/-- Embeds the `shared/src/websocket_messages.rs` `WebSocketMessage` as used by the
server: the ticket travels in its string-encoded form. -/
inductive SMsg where
  | register (nickname : String)
  | registerSuccess (users : List String)
  | userJoined (nickname : String)
  | userLeft (nickname : String)
  | sendFile (recipient : String) (ticket : String)
  | receiveFile (ticket : String)
  | errorDeserializingJson (e : String)
deriving DecidableEq, Repr

/-- Server state: `users_list : DashMap<String, Sender<WebSocketMessage>>`
modelled as an association list from nickname to connection id, plus the set of
connections currently subscribed to the broadcast channel (every connection
subscribes in `handle_socket` before its read task starts). DashMap iteration
order is unspecified, so any list order is a faithful representative. -/
structure ServerState where
  users_list : List (String × Nat)
  subs : List Nat
deriving DecidableEq, Repr

/-- Embeds `DashMap::insert(nickname, tx)`: overwrite semantics — afterwards the key
maps to the new connection and all other keys are unchanged. -/
def insertUser (l : List (String × Nat)) (n : String) (c : Nat) : List (String × Nat) :=
  (n, c) :: l.filter (fun p => p.1 != n)

/-- Embeds `DashMap::get(&recipient)` projected to the stored sender. -/
def lookupUser (l : List (String × Nat)) (n : String) : Option Nat :=
  (l.find? (fun p => p.1 == n)).map Prod.snd

/-- Embeds `DashMap::remove(&current_username)`. -/
def removeUser (l : List (String × Nat)) (n : String) : List (String × Nat) :=
  l.filter (fun p => p.1 != n)

/-- Outbound effect of the server: a message queued on one connection's write
channel, or a message sent on the broadcast channel. -/
inductive SOut where
  | toConn (c : Nat) (m : SMsg)
  | broadcast (m : SMsg)
deriving DecidableEq, Repr

/-- Delivery of one effect to connections: `broadcast_read` relays every
`UserJoined`/`UserLeft` broadcast into the write queue of every subscribed
connection, with no filtering of the originating connection. -/
def deliver (subs : List Nat) : SOut → List (Nat × SMsg)
  | .toConn c m => [(c, m)]
  | .broadcast m => subs.map (fun s => (s, m))

/-- Delivery of a list of effects. -/
def deliverAll (subs : List Nat) (outs : List SOut) : List (Nat × SMsg) :=
  outs.flatMap (deliver subs)

/-- The `RegisterSuccess` payload built in `read`: iterate the map after the
insert and keep every nickname different from the registrant's. -/
def registerReply (l : List (String × Nat)) (nickname : String) : List String :=
  (l.map Prod.fst).filter (fun n => n != nickname)

/-- The `Register` branch of `read`: insert/overwrite the session, reply with
the other registered nicknames, then send `UserJoined` on the broadcast
channel. -/
def processRegister (st : ServerState) (c : Nat) (nickname : String) :
    ServerState × List SOut :=
  let users := insertUser st.users_list nickname c
  ({ st with users_list := users },
   [SOut.toConn c (.registerSuccess (registerReply users nickname)),
    SOut.broadcast (.userJoined nickname)])

/-- The `SendFile` branch of `read`: look up the recipient's session and
forward `ReceiveFile(ticket)`; if the recipient is absent, drop silently. -/
def processSendFile (st : ServerState) (recipient : String) (ticket : String) :
    List SOut :=
  match lookupUser st.users_list recipient with
  | some ch => [SOut.toConn ch (.receiveFile ticket)]
  | none => []

/-- The tail of `read` after the socket stream ends: remove the session keyed
by `current_username` and send `UserLeft(current_username)` on the broadcast
channel. -/
def processDisconnect (st : ServerState) (current_username : String) :
    ServerState × List SOut :=
  ({ st with users_list := removeUser st.users_list current_username },
   [SOut.broadcast (.userLeft current_username)])

/-- One inbound websocket frame as seen by `read`, with the serde parse result
of a text frame made explicit (`badText` carries the parse error's text). -/
inductive Frame where
  | text (m : SMsg)
  | badText (e : String)
  | other
deriving DecidableEq, Repr

/-- Is this frame a successfully parsed `Register`? -/
def isRegisterFrame : Frame → Bool
  | .text (.register _) => true
  | _ => false

/-- The `current_username` local of `read` after processing the given frames,
starting from `u` (it starts as `String::new()` and is assigned only by the
`Register` branch). -/
def lastRegistered (u : String) : List Frame → String
  | [] => u
  | .text (.register n) :: rest => lastRegistered n rest
  | _ :: rest => lastRegistered u rest

/-- The whole `read` task of one connection `c`: process each inbound frame in
order, then perform the disconnect tail. Branches `_ => {}` of the source
(other parsed messages, non-text frames) produce nothing. -/
def readLoop (st : ServerState) (c : Nat) (current_username : String) :
    List Frame → ServerState × List SOut
  | [] => processDisconnect st current_username
  | .text (.register n) :: rest =>
    let r := processRegister st c n
    let r2 := readLoop r.1 c n rest
    (r2.1, r.2 ++ r2.2)
  | .text (.sendFile recipient ticket) :: rest =>
    let outs := processSendFile st recipient ticket
    let r2 := readLoop st c current_username rest
    (r2.1, outs ++ r2.2)
  | .text _ :: rest => readLoop st c current_username rest
  | .badText e :: rest =>
    let r2 := readLoop st c current_username rest
    (r2.1, SOut.toConn c (.errorDeserializingJson e) :: r2.2)
  | .other :: rest => readLoop st c current_username rest

/-- Register the same nickname from two connections in sequence. -/
def registerTwice (st : ServerState) (c1 c2 : Nat) (n : String) : ServerState :=
  (processRegister (processRegister st c1 n).1 c2 n).1

/-- Is this server effect a `UserLeft` broadcast? -/
def isUserLeftB : SOut → Bool
  | .broadcast (.userLeft _) => true
  | _ => false

/-! ## Transfer coordinator (fling-native/src/main.rs) -/

/-- Embeds `iroh_blobs::api::remote::GetProgressItem`: one item of the fetch stream. -/
inductive GetProgressItem where
  | progress (bytes : Nat)
  | done
  | error (e : String)
deriving DecidableEq, Repr

/-- Embeds `shared::app_events::AppEvent`, restricted to the events the transfer
coordinator emits in the embedded code paths. The `f32` progress value is
modelled as an exact rational. -/
inductive AppEvent where
  | importStart
  | importDone
  | downloadStart
  | downloadDone
  | updateProgressValue (value : ℚ)
  | fatalError (context : String)
deriving DecidableEq, Repr

/-- Embeds `let actual_size = size.iter().skip(1).sum::<u64>();` — the expected
payload total: the queried sizes with index 0 (the collection blob) skipped,
summed. Sizes are `Nat`; `get_hash_seq_and_sizes` is called with a 5 GiB
total-size bound, so the `u64` sum cannot wrap. -/
def actual_size (size : List Nat) : Nat :=
  (size.drop 1).sum

/-- The `while let Some(item) = stream.next().await` loop over the fetch
stream: `Progress(b)` emits `UpdateProgressValue(b / actual_size)`, `Done`
emits `DownloadDone` and breaks, `Error` emits a fatal error and keeps
consuming. -/
def fetchLoop (total : Nat) : List GetProgressItem → List AppEvent
  | [] => []
  | .progress b :: rest =>
    AppEvent.updateProgressValue ((b : ℚ) / (total : ℚ)) :: fetchLoop total rest
  | .done :: _ => [AppEvent.downloadDone]
  | .error e :: rest =>
    AppEvent.fatalError ("Error downloading one of the files: " ++ e) :: fetchLoop total rest

/-- The fetch phase: `DownloadStart` is sent just before the loop. -/
def runFetch (total : Nat) (stream : List GetProgressItem) : List AppEvent :=
  AppEvent.downloadStart :: fetchLoop total stream

/-- The progress fractions emitted by a list of events, in order. -/
def progressValues (evs : List AppEvent) : List ℚ :=
  evs.filterMap (fun e => match e with
    | .updateProgressValue v => some v
    | _ => none)

/-- The byte counters carried by the stream's `Progress` items, up to the
first `Done` (after which the loop stops consuming). -/
def progressBytes : List GetProgressItem → List Nat
  | [] => []
  | .progress b :: rest => b :: progressBytes rest
  | .done :: _ => []
  | .error _ :: rest => progressBytes rest

/-- Outcome of an async task body. -/
inductive TaskOutcome where
  | completed
  | panicked (msg : String)
deriving DecidableEq, Repr

/-- The cleanup call after exports:
`iroh_node.store.tags().delete_all().await.unwrap();` — the events it emits
and how the task body ends. `unwrap` on an `Err` panics; no `FatalError`
notification is sent on that path. -/
def delete_all_cleanup (result : Except String Unit) : List AppEvent × TaskOutcome :=
  match result with
  | .ok _ => ([], TaskOutcome.completed)
  | .error e => ([], TaskOutcome.panicked ("called Result.unwrap on an Err value: " ++ e))

/-- The store/network calls the `DownloadFile` branch can make, in order. -/
inductive DlCall where
  | downloaderDownload
  | localCheck
  | connect
  | sizeQuery
  | executeGet
  | loadCollection
  | exportFile (name : String)
  | deleteAllTags
deriving DecidableEq, Repr

/-- Outcomes of the external calls made by the `DownloadFile` branch, fixing
one concrete run: whether `downloader.download` succeeded, the result of the
local completeness check (`none` models `local()` returning an error),
whether `endpoint.connect` and `get_hash_seq_and_sizes` succeeded, and the
collection resolved by `Collection::load` (`none` models a load error). -/
structure DlEnv where
  downloadOk : Bool
  localComplete : Option Bool
  connectOk : Bool
  sizesOk : Bool
  collection : Option (List String)
deriving DecidableEq, Repr

/-- The export phase: `Collection::load`, then one `export` per (filename,
hash) pair, then `tags().delete_all()`. -/
def exportPhase (env : DlEnv) : List DlCall :=
  DlCall.loadCollection ::
    match env.collection with
    | none => []
    | some files => files.map DlCall.exportFile ++ [DlCall.deleteAllTags]

/-- The ordered call trace of the `DownloadFile` branch of the send-loop:
`downloader.download` first; on success the local completeness check; only
when the content is not complete come `endpoint.connect`,
`get_hash_seq_and_sizes` and `execute_get` (each failure short-circuits via
`try_or_continue`); then the export phase. -/
def downloadCalls (env : DlEnv) : List DlCall :=
  DlCall.downloaderDownload ::
    (if env.downloadOk then
      DlCall.localCheck ::
        (match env.localComplete with
        | none => []
        | some true => exportPhase env
        | some false =>
          DlCall.connect ::
            (if env.connectOk then
              DlCall.sizeQuery ::
                (if env.sizesOk then DlCall.executeGet :: exportPhase env
                 else [])
             else []))
     else [])

/-! ## Import Pipeline (fling-native/src/iroh_node.rs) -/

/-- Embeds `iroh_blobs::api::blobs::AddProgressItem`, as consumed by the per-file
loop of `IrohNode::import`: `Done(tag)` carries the temp tag (its hash
modelled as `Nat`), `Error` carries the failure, `other` stands for the
progress variants ignored by the `_ => {}` arm. -/
inductive AddProgressItem where
  | done (hash : Nat)
  | error (e : String)
  | other
deriving DecidableEq, Repr

/-- The per-file loop of `IrohNode::import` over the items its add-progress
stream yields: it breaks only on `Done(tt)`; an `Error` item sends one
`FatalError` naming the file and keeps looping. When the stream is exhausted
without a `Done`, the source `loop` keeps polling the ended stream forever and
the per-file future never completes — modelled by a `none` result. -/
def import_file (name : String) : List AddProgressItem → List AppEvent × Option Nat
  | [] => ([], none)
  | .done h :: _ => ([], some h)
  | .error _e :: rest =>
    let r := import_file name rest
    (AppEvent.fatalError ("Error importing " ++ name) :: r.1, r.2)
  | .other :: rest => import_file name rest

/-- All per-file runs: the emitted events and each file's result, in order
(`buffered_unordered(8)` imposes no order; any fixed order is a faithful
representative for the per-file facts proved here). -/
def importResults (files : List (String × List AddProgressItem)) :
    List AppEvent × List (String × Option Nat) :=
  match files with
  | [] => ([], [])
  | f :: rest =>
    let r := import_file f.1 f.2
    let rr := importResults rest
    (r.1 ++ rr.1, (f.1, r.2) :: rr.2)

/-- The whole pipeline: `buffered_unordered(8).collect()` completes only when
every per-file future completes; only then are the (filename, hash) pairs
assembled into a `Collection` and committed via `collection.store`. A `none`
commit models a pipeline that never settles. -/
def importFiles (files : List (String × List AddProgressItem)) :
    List AppEvent × Option (List (String × Nat)) :=
  let r := importResults files
  (r.1, r.2.mapM (fun p => p.2.map (fun h => (p.1, h))))

/-! ## Lemmas and claim theorems -/

lemma replicate_all_x (n : Nat) : (List.replicate n 'x').all (fun d => d == 'x') = true := by
  induction n with
  | zero => rfl
  | succ k ih => simp [List.replicate, ih]

lemma ticketFromString_ticketToString (t : BlobTicket) :
    ticketFromString (ticketToString t) = some t := by
  cases t with
  | mk h f n =>
    cases f <;>
      simp [ticketToString, ticketFromString, formatChar, replicate_all_x,
        List.length_replicate, Nat.unpair_pair]

lemma decodeStrList_strArr (xs : List String) : decodeStrList (strArr xs) = some xs := by
  induction xs with
  | nil => rfl
  | cons a l ih =>
    simp only [strArr, decodeStrList, List.map] at ih ⊢
    rw [List.mapM_cons, ih]
    rfl

/-- C9: For every Ticket and every protocol message carrying one, serializing
to the wire encoding and deserializing the result yields the original value:
the content address, the format tag and the origin peer address all round-trip
losslessly. -/
theorem websocket_message_roundtrip :
    (∀ t : BlobTicket, ticketFromString (ticketToString t) = some t) ∧
    (∀ m : WebSocketMessage, WebSocketMessage.from_json (WebSocketMessage.to_json m) = some m) := by
  refine ⟨ticketFromString_ticketToString, ?_⟩
  intro m
  cases m <;>
    simp [WebSocketMessage.to_json, WebSocketMessage.from_json, tagged,
      decodeStrList_strArr, ticketFromString_ticketToString]

lemma lookupUser_insertUser_self (l : List (String × Nat)) (n : String) (c : Nat) :
    lookupUser (insertUser l n c) n = some c := by
  simp [lookupUser, insertUser, List.find?]

lemma count_keys_insertUser (l : List (String × Nat)) (n : String) (c : Nat) :
    ((insertUser l n c).map Prod.fst).count n = 1 := by
  simp only [insertUser, List.map_cons, List.count_cons, if_pos rfl]
  rw [List.count_eq_zero.2]
  · simp
  · intro hmem
    rcases List.mem_map.1 hmem with ⟨p, hp, hfst⟩
    rcases List.mem_filter.1 hp with ⟨_, hne⟩
    exact absurd hfst (by simpa using hne)

lemma mem_registerReply_insertUser (l : List (String × Nat)) (n : String) (c : Nat)
    (m : String) :
    m ∈ registerReply (insertUser l n c) n ↔ m ≠ n ∧ m ∈ l.map Prod.fst := by
  simp only [registerReply, insertUser, List.map_cons, List.mem_filter, List.mem_cons,
    List.mem_map, bne_iff_ne, ne_eq]
  constructor
  · rintro ⟨hm, hne⟩
    rcases hm with h | ⟨p, ⟨hp, _⟩, hfst⟩
    · exact absurd h hne
    · exact ⟨hne, ⟨p, hp, hfst⟩⟩
  · rintro ⟨hne, p, hp, hfst⟩
    exact ⟨Or.inr ⟨p, ⟨hp, by simpa [hfst] using hne⟩, hfst⟩, hne⟩

/-- C5 counterexample: with a single connection 0 (which, like every
connection, subscribed to the broadcast channel in `handle_socket`), processing
`Register("alice")` from connection 0 delivers the `UserJoined("alice")`
broadcast to connection 0 itself — the registering connection — refuting the
claim that the broadcast is delivered only to sessions other than the
registering connection. -/
theorem user_joined_delivered_to_registrant :
    (0, SMsg.userJoined "alice") ∈
      deliverAll [0] (processRegister { users_list := [], subs := [0] } 0 "alice").2 := by
  decide

/-- C5 (amended): processing `Register(nickname)` updates the session map with
that nickname, the `RegisterSuccess` reply contains exactly the set of other
registered nicknames (excluding the registrant's own nickname), and the
`UserJoined(nickname)` broadcast is delivered to every subscribed connection,
including the registering one. -/
theorem register_updates_replies_broadcasts (st : ServerState) (c : Nat) (n : String) :
    lookupUser (processRegister st c n).1.users_list n = some c ∧
    (∀ m, m ∈ registerReply (insertUser st.users_list n c) n ↔
      m ≠ n ∧ m ∈ st.users_list.map Prod.fst) ∧
    (processRegister st c n).2 =
      [SOut.toConn c (SMsg.registerSuccess (registerReply (insertUser st.users_list n c) n)),
       SOut.broadcast (SMsg.userJoined n)] ∧
    deliverAll st.subs [SOut.broadcast (SMsg.userJoined n)] =
      st.subs.map (fun s => (s, SMsg.userJoined n)) := by
  refine ⟨lookupUser_insertUser_self st.users_list n c,
    fun m => mem_registerReply_insertUser st.users_list n c m, rfl, ?_⟩
  simp [deliverAll, deliver]

/-- C7: after a second `Register` with an already-registered nickname, the
session map holds exactly one session for that nickname, it is the most recent
registrant's, and routing `SendFile` to that nickname reaches only the most
recent registrant, never the first connection. -/
theorem nickname_overwrite_routes_to_latest (st : ServerState) (c1 c2 : Nat)
    (n t : String) (h : c1 ≠ c2) :
    (((registerTwice st c1 c2 n).users_list.map Prod.fst).count n = 1) ∧
    lookupUser (registerTwice st c1 c2 n).users_list n = some c2 ∧
    processSendFile (registerTwice st c1 c2 n) n t = [SOut.toConn c2 (SMsg.receiveFile t)] ∧
    SOut.toConn c1 (SMsg.receiveFile t) ∉
      processSendFile (registerTwice st c1 c2 n) n t := by
  have hcount := count_keys_insertUser
    (insertUser st.users_list n c1) n c2
  have hlook := lookupUser_insertUser_self (insertUser st.users_list n c1) n c2
  refine ⟨hcount, hlook, ?_, ?_⟩
  · simp [processSendFile, registerTwice, processRegister, hlook]
  · simp [processSendFile, registerTwice, processRegister, hlook, h]

/-- C7 witness: concrete instantiation with connections 0 and 1. -/
theorem nickname_overwrite_routes_to_latest_witness :
    (0 : Nat) ≠ 1 ∧
    processSendFile (registerTwice { users_list := [], subs := [0, 1] } 0 1 "alice")
      "alice" "tkt" = [SOut.toConn 1 (SMsg.receiveFile "tkt")] :=
  ⟨by decide,
   (nickname_overwrite_routes_to_latest { users_list := [], subs := [0, 1] } 0 1
     "alice" "tkt" (by decide)).2.2.1⟩

lemma processSendFile_no_userLeft (st : ServerState) (r t : String) :
    (processSendFile st r t).filter isUserLeftB = [] := by
  unfold processSendFile
  cases lookupUser st.users_list r <;> simp [isUserLeftB]

/-- Structure of a whole `read` task run: the outputs are a body free of
`UserLeft` broadcasts, followed by exactly one final
`UserLeft(current_username)` broadcast; the body carries a `UserJoined`
broadcast for every nickname registered during the run. -/
lemma readLoop_split (frames : List Frame) :
    ∀ (st : ServerState) (c : Nat) (u : String), ∃ body,
      (readLoop st c u frames).2 =
        body ++ [SOut.broadcast (SMsg.userLeft (lastRegistered u frames))] ∧
      body.filter isUserLeftB = [] ∧
      ∀ n, Frame.text (SMsg.register n) ∈ frames →
        SOut.broadcast (SMsg.userJoined n) ∈ body := by
  induction frames with
  | nil =>
    intro st c u
    exact ⟨[], rfl, rfl, by simp⟩
  | cons f rest ih =>
    intro st c u
    match f with
    | .text (.register n) =>
      rcases ih (processRegister st c n).1 c n with ⟨body, hsplit, hfree, hjoin⟩
      refine ⟨(processRegister st c n).2 ++ body, ?_, ?_, ?_⟩
      · simp [readLoop, hsplit, lastRegistered]
      · simp [List.filter_append, hfree, processRegister, isUserLeftB]
      · intro m hm
        rcases List.mem_cons.1 hm with hm | hm
        · have : m = n := by
            cases hm
            rfl
          subst this
          simp [processRegister]
        · exact List.mem_append_right _ (hjoin m hm)
    | .text (.registerSuccess us) =>
      rcases ih st c u with ⟨body, hsplit, hfree, hjoin⟩
      exact ⟨body, by simp [readLoop, hsplit, lastRegistered], hfree,
        fun m hm => hjoin m (by
          rcases List.mem_cons.1 hm with hm | hm
          · exact absurd hm (by simp)
          · exact hm)⟩
    | .text (.userJoined m0) =>
      rcases ih st c u with ⟨body, hsplit, hfree, hjoin⟩
      exact ⟨body, by simp [readLoop, hsplit, lastRegistered], hfree,
        fun m hm => hjoin m (by
          rcases List.mem_cons.1 hm with hm | hm
          · exact absurd hm (by simp)
          · exact hm)⟩
    | .text (.userLeft m0) =>
      rcases ih st c u with ⟨body, hsplit, hfree, hjoin⟩
      exact ⟨body, by simp [readLoop, hsplit, lastRegistered], hfree,
        fun m hm => hjoin m (by
          rcases List.mem_cons.1 hm with hm | hm
          · exact absurd hm (by simp)
          · exact hm)⟩
    | .text (.sendFile r t) =>
      rcases ih st c u with ⟨body, hsplit, hfree, hjoin⟩
      refine ⟨processSendFile st r t ++ body, ?_, ?_, ?_⟩
      · simp [readLoop, hsplit, lastRegistered]
      · simp [List.filter_append, hfree, processSendFile_no_userLeft]
      · intro m hm
        refine List.mem_append_right _ (hjoin m ?_)
        rcases List.mem_cons.1 hm with hm | hm
        · exact absurd hm (by simp)
        · exact hm
    | .text (.receiveFile t) =>
      rcases ih st c u with ⟨body, hsplit, hfree, hjoin⟩
      exact ⟨body, by simp [readLoop, hsplit, lastRegistered], hfree,
        fun m hm => hjoin m (by
          rcases List.mem_cons.1 hm with hm | hm
          · exact absurd hm (by simp)
          · exact hm)⟩
    | .text (.errorDeserializingJson e) =>
      rcases ih st c u with ⟨body, hsplit, hfree, hjoin⟩
      exact ⟨body, by simp [readLoop, hsplit, lastRegistered], hfree,
        fun m hm => hjoin m (by
          rcases List.mem_cons.1 hm with hm | hm
          · exact absurd hm (by simp)
          · exact hm)⟩
    | .badText e =>
      rcases ih st c u with ⟨body, hsplit, hfree, hjoin⟩
      refine ⟨SOut.toConn c (.errorDeserializingJson e) :: body, ?_, ?_, ?_⟩
      · simp [readLoop, hsplit, lastRegistered]
      · simp [hfree, isUserLeftB]
      · intro m hm
        refine List.mem_cons_of_mem _ (hjoin m ?_)
        rcases List.mem_cons.1 hm with hm | hm
        · exact absurd hm (by simp)
        · exact hm
    | .other =>
      rcases ih st c u with ⟨body, hsplit, hfree, hjoin⟩
      exact ⟨body, by simp [readLoop, hsplit, lastRegistered], hfree,
        fun m hm => hjoin m (by
          rcases List.mem_cons.1 hm with hm | hm
          · exact absurd hm (by simp)
          · exact hm)⟩

lemma lastRegistered_of_no_register (frames : List Frame) :
    ∀ u, frames.all (fun f => !isRegisterFrame f) = true → lastRegistered u frames = u := by
  induction frames with
  | nil => intro u _; rfl
  | cons f rest ih =>
    intro u h
    have h2 := h
    rw [List.all_cons, Bool.and_eq_true] at h2
    obtain ⟨hf, hrest⟩ := h2
    match f with
    | .text (.register n) => simp [isRegisterFrame] at hf
    | .text (.registerSuccess us) => exact ih u hrest
    | .text (.userJoined m) => exact ih u hrest
    | .text (.userLeft m) => exact ih u hrest
    | .text (.sendFile r t) => exact ih u hrest
    | .text (.receiveFile t) => exact ih u hrest
    | .text (.errorDeserializingJson e) => exact ih u hrest
    | .badText e => exact ih u hrest
    | .other => exact ih u hrest

lemma register_frame_mem_of_lastRegistered (frames : List Frame) :
    ∀ u, frames.any isRegisterFrame = true →
      Frame.text (SMsg.register (lastRegistered u frames)) ∈ frames := by
  induction frames with
  | nil => intro u h; simp at h
  | cons f rest ih =>
    intro u h
    match f with
    | .text (.register n) =>
      by_cases hrest : rest.any isRegisterFrame = true
      · exact List.mem_cons_of_mem _ (ih n hrest)
      · have hno : rest.all (fun g => !isRegisterFrame g) = true := by
          rw [List.all_eq_not_any_not]
          simp only [Bool.not_not]
          simp [Bool.not_eq_true] at hrest ⊢
          exact hrest
        rw [lastRegistered, lastRegistered_of_no_register rest n hno]
        exact List.mem_cons_self _ _
    | .text (.registerSuccess us) =>
      have : rest.any isRegisterFrame = true := by
        simpa [isRegisterFrame] using h
      exact List.mem_cons_of_mem _ (ih u this)
    | .text (.userJoined m) =>
      have : rest.any isRegisterFrame = true := by
        simpa [isRegisterFrame] using h
      exact List.mem_cons_of_mem _ (ih u this)
    | .text (.userLeft m) =>
      have : rest.any isRegisterFrame = true := by
        simpa [isRegisterFrame] using h
      exact List.mem_cons_of_mem _ (ih u this)
    | .text (.sendFile r t) =>
      have : rest.any isRegisterFrame = true := by
        simpa [isRegisterFrame] using h
      exact List.mem_cons_of_mem _ (ih u this)
    | .text (.receiveFile t) =>
      have : rest.any isRegisterFrame = true := by
        simpa [isRegisterFrame] using h
      exact List.mem_cons_of_mem _ (ih u this)
    | .text (.errorDeserializingJson e) =>
      have : rest.any isRegisterFrame = true := by
        simpa [isRegisterFrame] using h
      exact List.mem_cons_of_mem _ (ih u this)
    | .badText e =>
      have : rest.any isRegisterFrame = true := by
        simpa [isRegisterFrame] using h
      exact List.mem_cons_of_mem _ (ih u this)
    | .other =>
      have : rest.any isRegisterFrame = true := by
        simpa [isRegisterFrame] using h
      exact List.mem_cons_of_mem _ (ih u this)

/-- C8 counterexample: a connection that closes without ever registering. Its
whole `read` run (frames = `[]`, initial `current_username` = `""`) broadcasts
`UserLeft("")` although no `UserJoined("")` was ever broadcast — with
connection 0 the only connection of the system, this refutes the claim that a
`UserLeft` for a nickname is never broadcast before a `UserJoined` for that
same nickname. -/
theorem user_left_without_join_on_unregistered :
    (readLoop { users_list := [], subs := [0, 1] } 0 "" []).2 =
      [SOut.broadcast (SMsg.userLeft "")] ∧
    SOut.broadcast (SMsg.userJoined "") ∉
      (readLoop { users_list := [], subs := [0, 1] } 0 "" []).2 := by
  decide

/-- C8 (amended): every `read` run broadcasts `UserLeft` exactly once, as its
final output, carrying the last-registered nickname; and when the connection
registered at least once, a `UserJoined` broadcast for that same nickname
occurs earlier in the run (a connection that never registered instead
broadcasts `UserLeft("")` with no preceding `UserJoined`). -/
theorem user_left_once_after_join (st : ServerState) (c : Nat) (frames : List Frame)
    (h : frames.any isRegisterFrame = true) :
    ∃ body,
      (readLoop st c "" frames).2 =
        body ++ [SOut.broadcast (SMsg.userLeft (lastRegistered "" frames))] ∧
      body.filter isUserLeftB = [] ∧
      (readLoop st c "" frames).2.filter isUserLeftB =
        [SOut.broadcast (SMsg.userLeft (lastRegistered "" frames))] ∧
      SOut.broadcast (SMsg.userJoined (lastRegistered "" frames)) ∈ body := by
  rcases readLoop_split frames st c "" with ⟨body, hsplit, hfree, hjoin⟩
  refine ⟨body, hsplit, hfree, ?_, ?_⟩
  · rw [hsplit, List.filter_append, hfree]
    simp [isUserLeftB]
  · have hmem := register_frame_mem_of_lastRegistered frames "" h
    exact hjoin _ hmem

/-- C8 witness: a connection that registers "bob" and disconnects. -/
theorem user_left_once_after_join_witness :
    ([Frame.text (SMsg.register "bob")].any isRegisterFrame = true) ∧
    ∃ body,
      (readLoop { users_list := [], subs := [0] } 0 ""
          [Frame.text (SMsg.register "bob")]).2 =
        body ++ [SOut.broadcast (SMsg.userLeft
          (lastRegistered "" [Frame.text (SMsg.register "bob")]))] ∧
      body.filter isUserLeftB = [] ∧
      (readLoop { users_list := [], subs := [0] } 0 ""
          [Frame.text (SMsg.register "bob")]).2.filter isUserLeftB =
        [SOut.broadcast (SMsg.userLeft
          (lastRegistered "" [Frame.text (SMsg.register "bob")]))] ∧
      SOut.broadcast (SMsg.userJoined
        (lastRegistered "" [Frame.text (SMsg.register "bob")])) ∈ body :=
  ⟨by decide,
   user_left_once_after_join { users_list := [], subs := [0] } 0
     [Frame.text (SMsg.register "bob")] (by decide)⟩

lemma readLoop_state_of_no_register (frames : List Frame) :
    ∀ (st : ServerState) (c : Nat) (u : String),
      frames.all (fun f => !isRegisterFrame f) = true →
      (readLoop st c u frames).1.users_list = removeUser st.users_list u := by
  induction frames with
  | nil => intro st c u _; rfl
  | cons f rest ih =>
    intro st c u h
    have h2 := h
    rw [List.all_cons, Bool.and_eq_true] at h2
    obtain ⟨hf, hrest⟩ := h2
    match f with
    | .text (.register n) => simp [isRegisterFrame] at hf
    | .text (.registerSuccess us) => exact ih st c u hrest
    | .text (.userJoined m) => exact ih st c u hrest
    | .text (.userLeft m) => exact ih st c u hrest
    | .text (.sendFile r t) => exact ih st c u hrest
    | .text (.receiveFile t) => exact ih st c u hrest
    | .text (.errorDeserializingJson e) => exact ih st c u hrest
    | .badText e => exact ih st c u hrest
    | .other => exact ih st c u hrest

/-- C10: for every connection that closes without ever having a `Register`
message processed, the server still performs the map removal with the
empty-string key, and its final output is the `UserLeft("")` broadcast, which
is relayed to every subscribed connection. -/
theorem unregistered_disconnect_broadcasts_empty (st : ServerState) (c : Nat)
    (frames : List Frame) (h : frames.all (fun f => !isRegisterFrame f) = true) :
    (readLoop st c "" frames).1.users_list = removeUser st.users_list "" ∧
    (readLoop st c "" frames).2.getLast? = some (SOut.broadcast (SMsg.userLeft "")) ∧
    deliver st.subs (SOut.broadcast (SMsg.userLeft "")) =
      st.subs.map (fun s => (s, SMsg.userLeft "")) := by
  refine ⟨readLoop_state_of_no_register frames st c "" h, ?_, rfl⟩
  rcases readLoop_split frames st c "" with ⟨body, hsplit, _, _⟩
  rw [hsplit, lastRegistered_of_no_register frames "" h]
  simp

/-- C10 witness: a connection that only sends one malformed frame. -/
theorem unregistered_disconnect_broadcasts_empty_witness :
    ([Frame.badText "oops"].all (fun f => !isRegisterFrame f) = true) ∧
    ((readLoop { users_list := [("alice", 1)], subs := [0, 1] } 0 ""
        [Frame.badText "oops"]).1.users_list =
      removeUser [("alice", 1)] "" ∧
    (readLoop { users_list := [("alice", 1)], subs := [0, 1] } 0 ""
        [Frame.badText "oops"]).2.getLast? =
      some (SOut.broadcast (SMsg.userLeft "")) ∧
    deliver [0, 1] (SOut.broadcast (SMsg.userLeft "")) =
      [0, 1].map (fun s => (s, SMsg.userLeft ""))) :=
  ⟨by decide,
   unregistered_disconnect_broadcasts_empty
     { users_list := [("alice", 1)], subs := [0, 1] } 0
     [Frame.badText "oops"] (by decide)⟩

lemma progressValues_fetchLoop (total : Nat) (stream : List GetProgressItem) :
    progressValues (fetchLoop total stream) =
      (progressBytes stream).map (fun b : Nat => (b : ℚ) / (total : ℚ)) := by
  induction stream with
  | nil => rfl
  | cons item rest ih =>
    cases item with
    | progress b => simpa [fetchLoop, progressBytes, progressValues] using ih
    | done => simp [fetchLoop, progressBytes, progressValues]
    | error e => simpa [fetchLoop, progressBytes, progressValues] using ih

lemma progressValues_runFetch (total : Nat) (stream : List GetProgressItem) :
    progressValues (runFetch total stream) =
      (progressBytes stream).map (fun b : Nat => (b : ℚ) / (total : ℚ)) := by
  rw [runFetch, progressValues, List.filterMap_cons]
  exact progressValues_fetchLoop total stream

lemma list_getLast_map {α β : Type} (f : α → β) (l : List α) :
    (l.map f).getLast? = (l.getLast?).map f := by
  induction l with
  | nil => rfl
  | cons a t ih =>
    cases t with
    | nil => rfl
    | cons b t2 => simpa [List.getLast?_cons_cons] using ih

/-- C1 counterexample: take queried sizes `[1, 1]` (collection blob of 1 byte
at index 0 plus one payload blob of 1 byte), so the expected payload total is
`actual_size [1, 1] = 1 > 0`. With nothing local, the missing set handed to
`execute_get` includes the collection blob itself, so the stream's byte counter
reaches 2: the run emits the fractions `[1, 2]` — the fraction 2 lies outside
`[0, 1]`, and the final fraction emitted before `DownloadDone` is 2, not 1. -/
theorem progress_fraction_exceeds_one :
    0 < actual_size [1, 1] ∧
    progressValues (runFetch (actual_size [1, 1])
      [GetProgressItem.progress 1, GetProgressItem.progress 2, GetProgressItem.done]) =
      [(1 : ℚ), 2] ∧
    ¬ ((2 : ℚ) ≤ 1) ∧
    (progressValues (runFetch (actual_size [1, 1])
      [GetProgressItem.progress 1, GetProgressItem.progress 2, GetProgressItem.done])).getLast? =
      some 2 ∧
    (2 : ℚ) ≠ 1 := by
  refine ⟨by decide, ?_, by norm_num, ?_, by norm_num⟩
  · show progressValues (runFetch 1 _) = _
    rw [progressValues_runFetch]
    norm_num [progressBytes]
  · show (progressValues (runFetch 1 _)).getLast? = _
    rw [progressValues_runFetch]
    norm_num [progressBytes]

/-- C1 (amended): the emitted fractions are the stream's byte counters divided
by the expected payload total, so whenever the total is positive, the stream's
byte counters are non-decreasing and each is at most the total, every emitted
fraction lies in `[0, 1]` and the emitted sequence is non-decreasing; the
final fraction emitted before `DownloadDone` equals 1 exactly when the last
byte counter equals the total — the code does not enforce either bound, and
the counter can exceed the total because the fetched missing set includes the
collection blob whose size is excluded from the total. -/
theorem progress_fractions_bounded_monotone (total : Nat)
    (stream : List GetProgressItem) (hpos : 0 < total)
    (hbound : ∀ b ∈ progressBytes stream, b ≤ total)
    (hmono : List.Chain' (· ≤ ·) (progressBytes stream)) :
    (∀ q ∈ progressValues (runFetch total stream), 0 ≤ q ∧ q ≤ 1) ∧
    List.Chain' (· ≤ ·) (progressValues (runFetch total stream)) ∧
    ((progressBytes stream).getLast? = some total →
      (progressValues (runFetch total stream)).getLast? = some 1) := by
  have hq : (0 : ℚ) < (total : ℚ) := by exact_mod_cast hpos
  rw [progressValues_runFetch]
  refine ⟨?_, ?_, ?_⟩
  · intro q hqmem
    rcases List.mem_map.1 hqmem with ⟨b, hb, rfl⟩
    refine ⟨div_nonneg (Nat.cast_nonneg b) (le_of_lt hq), ?_⟩
    rw [div_le_one hq]
    exact_mod_cast hbound b hb
  · rw [List.chain'_map]
    refine List.Chain'.imp ?_ hmono
    intro a b hab
    exact (div_le_div_iff_of_pos_right hq).2 (by exact_mod_cast hab)
  · intro hlast
    rw [list_getLast_map, hlast]
    simp [div_self (ne_of_gt hq)]

/-- C1 witness: total 2, stream bytes 1 then 2, then `Done`. -/
theorem progress_fractions_bounded_monotone_witness :
    (0 < 2 ∧
     (∀ b ∈ progressBytes
        [GetProgressItem.progress 1, GetProgressItem.progress 2, GetProgressItem.done],
        b ≤ 2) ∧
     List.Chain' (· ≤ ·) (progressBytes
        [GetProgressItem.progress 1, GetProgressItem.progress 2, GetProgressItem.done])) ∧
    ((∀ q ∈ progressValues (runFetch 2
        [GetProgressItem.progress 1, GetProgressItem.progress 2, GetProgressItem.done]),
        0 ≤ q ∧ q ≤ 1) ∧
     List.Chain' (· ≤ ·) (progressValues (runFetch 2
        [GetProgressItem.progress 1, GetProgressItem.progress 2, GetProgressItem.done])) ∧
     ((progressBytes
        [GetProgressItem.progress 1, GetProgressItem.progress 2, GetProgressItem.done]).getLast? =
          some 2 →
      (progressValues (runFetch 2
        [GetProgressItem.progress 1, GetProgressItem.progress 2, GetProgressItem.done])).getLast? =
          some 1)) :=
  ⟨⟨by decide, by decide, by simp [progressBytes, List.chain'_cons]⟩,
   progress_fractions_bounded_monotone 2
     [GetProgressItem.progress 1, GetProgressItem.progress 2, GetProgressItem.done]
     (by decide) (by decide) (by simp [progressBytes, List.chain'_cons])⟩

/-- C2: evaluating the tag-deletion cleanup path at a failing input. When
`delete_all()` returns an error, the code panics via `unwrap` and emits no
notification — contradicting the claim (and §7 of the spec) that cleanup
errors are surfaced as notifications and the path never panics. -/
theorem delete_all_unwrap_panics :
    delete_all_cleanup (Except.error "disk full") =
      ([], TaskOutcome.panicked "called Result.unwrap on an Err value: disk full") ∧
    ∀ e : String, (delete_all_cleanup (Except.error e)).1 = [] := by
  exact ⟨rfl, fun e => rfl⟩

lemma list_sum_getD (l : List Nat) :
    l.sum = ∑ i in Finset.range l.length, l.getD i 0 := by
  induction l with
  | nil => simp
  | cons a t ih =>
    rw [List.sum_cons, List.length_cons, Finset.sum_range_succ']
    simp only [List.getD_cons_succ, List.getD_cons_zero]
    rw [← ih]
    exact Nat.add_comm a t.sum

/-- C6: the expected payload total `actual_size` equals the sum of the queried
per-sub-blob sizes over all indices except index 0 (the collection
descriptor). -/
theorem actual_size_excludes_descriptor (size : List Nat) :
    actual_size size = ∑ i in (Finset.range size.length).erase 0, size.getD i 0 := by
  cases size with
  | nil => simp [actual_size]
  | cons a t =>
    have h0 : (0 : ℕ) ∈ Finset.range (a :: t).length := by
      simp
    have h := Finset.sum_erase_add (Finset.range (a :: t).length)
      (fun i => (a :: t).getD i 0) h0
    have htot : ∑ i in Finset.range (a :: t).length, (a :: t).getD i 0 = a + t.sum := by
      rw [← list_sum_getD, List.sum_cons]
    simp only [List.getD_cons_zero] at h
    rw [htot] at h
    have h2 : actual_size (a :: t) = t.sum := rfl
    rw [h2]
    omega

lemma connect_not_mem_exportPhase (env : DlEnv) : DlCall.connect ∉ exportPhase env := by
  unfold exportPhase
  cases env.collection with
  | none => simp
  | some files =>
    simp only [List.mem_cons, List.mem_append, List.mem_map, List.mem_singleton]
    rintro (h | ⟨⟨f, _, h⟩, _⟩ | h) <;> simp_all

lemma sizeQuery_not_mem_exportPhase (env : DlEnv) : DlCall.sizeQuery ∉ exportPhase env := by
  unfold exportPhase
  cases env.collection with
  | none => simp
  | some files =>
    simp only [List.mem_cons, List.mem_append, List.mem_map, List.mem_singleton]
    rintro (h | ⟨⟨f, _, h⟩, _⟩ | h) <;> simp_all

/-- C4: when `downloader.download` succeeds and the local completeness check
reports the ticket's content fully present, the job makes no `connect` call
and no size query, and proceeds directly to the export phase. -/
theorem local_complete_skips_connect (env : DlEnv) (h1 : env.downloadOk = true)
    (h2 : env.localComplete = some true) :
    DlCall.connect ∉ downloadCalls env ∧
    DlCall.sizeQuery ∉ downloadCalls env ∧
    downloadCalls env =
      DlCall.downloaderDownload :: DlCall.localCheck :: exportPhase env := by
  have h3 : downloadCalls env =
      DlCall.downloaderDownload :: DlCall.localCheck :: exportPhase env := by
    simp [downloadCalls, h1, h2]
  refine ⟨?_, ?_, h3⟩
  · rw [h3]
    simp only [List.mem_cons]
    rintro (h | h | h)
    · cases h
    · cases h
    · exact connect_not_mem_exportPhase env h
  · rw [h3]
    simp only [List.mem_cons]
    rintro (h | h | h)
    · cases h
    · cases h
    · exact sizeQuery_not_mem_exportPhase env h

/-- C4 witness: a concrete locally-complete run with one file to export. -/
theorem local_complete_skips_connect_witness :
    ((DlEnv.mk true (some true) false false (some ["a.txt"])).downloadOk = true ∧
     (DlEnv.mk true (some true) false false (some ["a.txt"])).localComplete = some true) ∧
    (DlCall.connect ∉ downloadCalls (DlEnv.mk true (some true) false false (some ["a.txt"])) ∧
     DlCall.sizeQuery ∉ downloadCalls (DlEnv.mk true (some true) false false (some ["a.txt"])) ∧
     downloadCalls (DlEnv.mk true (some true) false false (some ["a.txt"])) =
       DlCall.downloaderDownload :: DlCall.localCheck ::
         exportPhase (DlEnv.mk true (some true) false false (some ["a.txt"]))) :=
  ⟨⟨rfl, rfl⟩,
   local_complete_skips_connect (DlEnv.mk true (some true) false false (some ["a.txt"]))
     rfl rfl⟩

/-- C3: evaluating the pipeline at the spec's own test vector — three files
where file 2's source is unreadable (its add-progress stream yields one
`Error` and ends). Exactly one fatal-error event names file 2 and the sibling
imports still complete, but the failing file's loop never breaks, so the
pipeline never settles and no Collection is committed — against the claim
that a Collection with files 1 and 3 is committed. -/
theorem failed_import_never_settles :
    importResults
      [("f1", [AddProgressItem.done 10]),
       ("f2", [AddProgressItem.error "unreadable"]),
       ("f3", [AddProgressItem.done 30])] =
      ([AppEvent.fatalError "Error importing f2"],
       [("f1", some 10), ("f2", none), ("f3", some 30)]) ∧
    importFiles
      [("f1", [AddProgressItem.done 10]),
       ("f2", [AddProgressItem.error "unreadable"]),
       ("f3", [AddProgressItem.done 30])] =
      ([AppEvent.fatalError "Error importing f2"], none) := by
  exact ⟨rfl, rfl⟩
